import Mathlib

/-!
Verification development for the interview-scheduling subsystem of the
ai-lead-gen repository (src/calendar_integration.py and
src/scheduling_engine.py), shallowly embedded in Lean.

Conventions of the embedding:
* Instants are modelled as integer minutes since an epoch taken to be a
  Monday 00:00 UTC, so that `hour = t / 60 % 24` and
  `weekday = t / 1440 % 7` (Monday = 0) agree with the `datetime`
  computations of the source for the UTC timezone, the only timezone the
  modelled call paths use.  ISO-formatting and re-parsing of instants,
  which the source does when it stores times in dicts, is the identity
  here.
* Python floats that carry scores and weights are modelled as rationals.
* Python dicts keyed by strings are modelled as association lists with
  assignment replacing an existing binding in place
  (`insertAssoc`), lookup returning the binding (`findAssoc`) and
  `del` removing the binding (`removeAssoc`).
* Fallible network calls of the calendar collaborators are modelled as
  `Option`-valued functions; `none` plays the role of a raised
  exception, which the source catches.
* Wall-clock reads (`datetime.now()`) and random id generation are
  modelled as explicit environment parameters (`Env`).
-/

namespace LeadGen

/-- A busy interval (a tuple `(busy_start, busy_end)` of the source). -/
structure Ivl where
  lo : Int
  hi : Int
deriving DecidableEq, Repr

/-- An availability slot dict: keys `start_time`, `end_time`,
`duration_minutes`.  The field `stop` models the key `end_time` (`end` is
reserved in Lean). -/
structure Slot where
  start : Int
  stop : Int
  durationMinutes : Int
deriving DecidableEq, Repr

/-- Association-list model of Python dict assignment `d[k] = v`:
replaces an existing binding for `k` in place, else appends. -/
def insertAssoc {β : Type} (l : List (String × β)) (k : String) (v : β) :
    List (String × β) :=
  if l.any (fun p => p.1 = k) then
    l.map (fun p => if p.1 = k then (k, v) else p)
  else
    l ++ [(k, v)]

/-- Association-list model of Python dict lookup `d[k]` / `k in d`. -/
def findAssoc {β : Type} : List (String × β) → String → Option β
  | [], _ => none
  | p :: rest, k => if p.1 = k then some p.2 else findAssoc rest k

/-- Association-list model of Python dict deletion `del d[k]`. -/
def removeAssoc {β : Type} (l : List (String × β)) (k : String) :
    List (String × β) :=
  l.filter (fun p => p.1 ≠ k)

/-! ## Calendar integration (src/calendar_integration.py)

`GoogleCalendarIntegration.get_availability` (lines 198-275): fetch the
busy periods of one participant from the freebusy endpoint, then walk the
requested window in hard-coded 30-minute steps
(`slot_duration = timedelta(minutes=30)`), keeping each step that
overlaps no busy period.  The network fetch is abstracted as an
`Option (List Ivl)`; a `none` result models the exception path, whose
handler returns the empty list. -/

/-- The inner loop test of `get_availability`:
`current_time < busy_end and slot_end > busy_start` for some busy range
(the loop sets `is_available = False` and breaks). -/
def overlapsBusy (busy : List Ivl) (s e : Int) : Bool :=
  busy.any (fun b => s < b.hi && e > b.lo)

/-- The `while current_time + slot_duration <= end_time` loop of
`get_availability`, with `cur` the loop variable `current_time`.  The
`fuel` argument only bounds the recursion; the loop guard is checked
exactly as in the source, and `googleGetAvailability` passes fuel that is
never exhausted before the guard fails (the guard forces
`30 * iterations ≤ endTime - cur₀`). -/
def freeSlotsAux (busy : List Ivl) (endTime : Int) : Nat → Int → List Slot
  | 0, _ => []
  | fuel + 1, cur =>
    if cur + 30 ≤ endTime then
      (if overlapsBusy busy cur (cur + 30) then [] else [⟨cur, cur + 30, 30⟩])
        ++ freeSlotsAux busy endTime fuel (cur + 30)
    else []

/-- `GoogleCalendarIntegration.get_availability`: `fetchResult` is the
outcome of the freebusy query (`none` = raised exception, caught by the
blanket handler that returns `[]`). -/
def googleGetAvailability (fetchResult : Option (List Ivl))
    (startTime endTime : Int) : List Slot :=
  match fetchResult with
  | none => []
  | some busy => freeSlotsAux busy endTime (endTime - startTime).toNat startTime

/-- The `all_availability` dict built by `get_common_availability`
(lines 1267-1275): one entry per user, in first-seen order, each holding
the availability returned for that user.  A failing fetch contributes an
empty availability list (the per-user handler of `get_availability`
returns `[]`; the outer `except` of `get_common_availability` is
unreachable for the embedded integration, whose calls are total). -/
def buildAllAvailability (fetch : String → Option (List Ivl))
    (users : List String) (s e : Int) : List (String × List Slot) :=
  users.foldl (fun acc u => insertAssoc acc u (googleGetAvailability (fetch u) s e)) []

/-- One step of the intersection in `_find_common_slots`
(lines 1319-1335): pair every current common range with every range of
the next user, keep intersections that are non-empty and at least
`duration_minutes` long, in loop order. -/
def intersectRanges (potential : List (Int × Int)) (uslots : List (Int × Int))
    (dur : Int) : List (Int × Int) :=
  potential.flatMap (fun c => uslots.filterMap (fun s =>
    let istart := max c.1 s.1
    let iend := min c.2 s.2
    if istart < iend ∧ dur ≤ iend - istart then some (istart, iend) else none))

/-- The fold of `_find_common_slots` over the users after the first.
When an intersection step leaves nothing, the source returns `[]` from
the whole function; returning `[]` from the fold is equivalent because
the final conversion maps `[]` to `[]`. -/
def intersectFold (dur : Int) : List (Int × Int) → List (List (Int × Int)) →
    List (Int × Int)
  | potential, [] => potential
  | potential, uslots :: rest =>
    let newCommon := intersectRanges potential uslots dur
    if newCommon.isEmpty then [] else intersectFold dur newCommon rest

/-- `CalendarService._find_common_slots` (lines 1283-1354): start from
the ranges of the first user, intersect with each subsequent user, then
convert the surviving ranges back to slot dicts, keeping only those of at
least the minimum duration. -/
def findCommonSlots (allAvail : List (String × List Slot)) (dur : Int) :
    List Slot :=
  match allAvail with
  | [] => []
  | (_, firstSlots) :: rest =>
    let toRanges := fun (slots : List Slot) => slots.map (fun s => (s.start, s.stop))
    let potential := intersectFold dur (toRanges firstSlots)
      (rest.map (fun p => toRanges p.2))
    potential.filterMap (fun r =>
      if dur ≤ r.2 - r.1 then some ⟨r.1, r.2, r.2 - r.1⟩ else none)

/-- `CalendarService.get_common_availability` (lines 1246-1281). -/
def getCommonAvailability (fetch : String → Option (List Ivl))
    (users : List String) (s e dur : Int) : List Slot :=
  findCommonSlots (buildAllAvailability fetch users s e) dur

/-! ## Constraints (src/scheduling_engine.py, lines 22-307)

Each constraint is an object with a `weight` and an `evaluate` method;
the embedding packages it as a record whose `eval` field is the method
and whose `name` field is `__class__.__name__` (used as the key of the
per-slot `constraint_scores` dict). -/

/-- Scheduling preferences (the keys of the `preferences` dict that
`_prepare_constraints` reads). -/
structure Prefs where
  preferredTimeOfDay : Option String := none
  avoidMondays : Bool := false
  avoidFridays : Bool := false
  avoidWeekends : Bool := false
  preferredStartDate : Option Int := none
  preferredEndDate : Option Int := none

/-- The `context` dict built by `find_available_slots`, plus the wall
clock `now`, which `MinimumNoticeConstraint.evaluate` reads directly via
`datetime.now()` and which the embedding passes explicitly. -/
structure Ctx where
  timezone : String
  durationMinutes : Int
  participants : List String
  preferences : Option Prefs
  now : Int

/-- A scheduling constraint: weight plus `evaluate(slot, context)`. -/
structure SchedulingConstraint where
  name : String
  weight : ℚ
  eval : Slot → Ctx → ℚ

/-- Weekday of an instant, Monday = 0 (the epoch is a Monday). -/
def weekdayOf (t : Int) : Int := t / 1440 % 7

/-- Hour of day of an instant. -/
def hourOf (t : Int) : Int := t / 60 % 24

/-- `BusinessHoursConstraint` (lines 48-97). -/
def businessHoursConstraint (startHour endHour : Int) (businessDays : List Int)
    (weight : ℚ) : SchedulingConstraint where
  name := "BusinessHoursConstraint"
  weight := weight
  eval := fun slot _ =>
    if weekdayOf slot.start ∉ businessDays then 0
    else if hourOf slot.start < startHour ∨ hourOf slot.start ≥ endHour then 0
    else 1

/-- `TimePreferenceConstraint` (lines 100-159); the constructor lowercases
the preference string. -/
def timePreferenceConstraint (preference : String) (weight : ℚ) :
    SchedulingConstraint where
  name := "TimePreferenceConstraint"
  weight := weight
  eval := fun slot _ =>
    let pref := preference.toLower
    if pref = "any" then 1
    else
      let h := hourOf slot.start
      if pref = "morning" ∧ 9 ≤ h ∧ h < 12 then 1
      else if pref = "afternoon" ∧ 12 ≤ h ∧ h < 17 then 1
      else if pref = "evening" ∧ 17 ≤ h ∧ h < 20 then 1
      else if pref = "morning" ∧ 8 ≤ h ∧ h < 9 then 8/10
      else if pref = "morning" ∧ 12 ≤ h ∧ h < 13 then 6/10
      else if pref = "afternoon" ∧ 11 ≤ h ∧ h < 12 then 8/10
      else if pref = "afternoon" ∧ 17 ≤ h ∧ h < 18 then 6/10
      else if pref = "evening" ∧ 16 ≤ h ∧ h < 17 then 8/10
      else if pref = "evening" ∧ 20 ≤ h ∧ h < 21 then 6/10
      else 3/10

/-- `DayAvoidanceConstraint` (lines 162-200). -/
def dayAvoidanceConstraint (daysToAvoid : List Int) (weight : ℚ) :
    SchedulingConstraint where
  name := "DayAvoidanceConstraint"
  weight := weight
  eval := fun slot _ => if weekdayOf slot.start ∈ daysToAvoid then 0 else 1

/-- `DateRangeConstraint` (lines 203-266); `timedelta.days` is floor
division of the minute difference by 1440. -/
def dateRangeConstraint (earliest latest prefStart prefEnd : Option Int)
    (weight : ℚ) : SchedulingConstraint where
  name := "DateRangeConstraint"
  weight := weight
  eval := fun slot _ =>
    let t := slot.start
    if earliest.any (fun v => t < v) then 0
    else if latest.any (fun v => t > v) then 0
    else
      match prefStart, prefEnd with
      | some ps, some pe =>
        if ps ≤ t ∧ t ≤ pe then 1
        else if t < ps then max (1/2) (1 - (((ps - t) / 1440 : Int) : ℚ) * (1/10))
        else max (1/2) (1 - (((t - pe) / 1440 : Int) : ℚ) * (1/10))
      | _, _ => 1

/-- `MinimumNoticeConstraint` (lines 269-306); the notice in hours is a
float, modelled exactly as a rational. -/
def minimumNoticeConstraint (minimumHours : Int) (weight : ℚ) :
    SchedulingConstraint where
  name := "MinimumNoticeConstraint"
  weight := weight
  eval := fun slot ctx =>
    if (((slot.start - ctx.now : Int) : ℚ) / 60) < (minimumHours : ℚ) then 0 else 1

/-- `ConstraintBasedScheduler._create_default_constraints` (lines 326-336). -/
def defaultConstraints : List SchedulingConstraint :=
  [businessHoursConstraint 9 17 [0, 1, 2, 3, 4] 1,
   minimumNoticeConstraint 24 (9/10)]

/-- `ConstraintBasedScheduler._prepare_constraints` (lines 397-465). -/
def prepareConstraints (constraints : Option (List SchedulingConstraint))
    (preferences : Option Prefs) : List SchedulingConstraint :=
  let all := defaultConstraints ++ constraints.getD []
  match preferences with
  | none => all
  | some p =>
    let all := all ++ (match p.preferredTimeOfDay with
      | some pref => [timePreferenceConstraint pref (7/10)]
      | none => [])
    let daysToAvoid := (if p.avoidMondays then [(0 : Int)] else [])
      ++ (if p.avoidFridays then [4] else [])
      ++ (if p.avoidWeekends then [5, 6] else [])
    let all := all ++ (if daysToAvoid.isEmpty then []
      else [dayAvoidanceConstraint daysToAvoid (8/10)])
    all ++ (match p.preferredStartDate, p.preferredEndDate with
      | some ps, some pe => [dateRangeConstraint none none (some ps) (some pe) (6/10)]
      | _, _ => [])

/-! ## Scoring and ranking (src/scheduling_engine.py, lines 338-512) -/

/-- A slot dict after `_score_slots` added `score` and
`constraint_scores`. -/
structure ScoredSlot where
  slot : Slot
  score : ℚ
  constraintScores : List (String × ℚ)
deriving DecidableEq

/-- Total weight of a constraint list
(`sum(constraint.weight for constraint in constraints)`). -/
def totalWeight (constraints : List SchedulingConstraint) : ℚ :=
  (constraints.map (fun c => c.weight)).sum

/-- The accumulated `weighted_score` of the evaluation loop of
`_score_slots`. -/
def weightedScore (constraints : List SchedulingConstraint) (slot : Slot)
    (ctx : Ctx) : ℚ :=
  (constraints.map (fun c => c.eval slot ctx * c.weight)).sum

/-- `_score_slots` (lines 467-512), for one slot: normalize the weighted
score by the total weight when that is positive, else score 1.0; the
per-constraint scores are recorded in a dict keyed by class name. -/
def scoreSlot (constraints : List SchedulingConstraint) (slot : Slot)
    (ctx : Ctx) : ScoredSlot where
  slot := slot
  score :=
    if totalWeight constraints > 0
    then weightedScore constraints slot ctx / totalWeight constraints
    else 1
  constraintScores :=
    constraints.foldl (fun acc c => insertAssoc acc c.name (c.eval slot ctx)) []

/-- `_score_slots` over a slot list. -/
def scoreSlots (slots : List Slot) (constraints : List SchedulingConstraint)
    (ctx : Ctx) : List ScoredSlot :=
  slots.map (fun s => scoreSlot constraints s ctx)

/-- The comparison under
`sorted(scored_slots, key=lambda x: x["score"], reverse=True)`:
`a` may come before `b` iff its score is at least as large. -/
def scoreGe (a b : ScoredSlot) : Prop := b.score ≤ a.score

instance : DecidableRel scoreGe :=
  fun a b => inferInstanceAs (Decidable (b.score ≤ a.score))

instance : IsTotal ScoredSlot scoreGe := ⟨fun a b => le_total b.score a.score⟩

instance : IsTrans ScoredSlot scoreGe := ⟨fun _ _ _ h1 h2 => le_trans h2 h1⟩

/-- Line 392: `sorted(scored_slots, key=..., reverse=True)[:max_slots]`.
Python `sorted` is stable; a stable sort on the descending-score preorder
is unique, and `List.insertionSort scoreGe` computes it (it inserts each
element before the first later-listed element of less-or-equal score). -/
def rankSlots (scored : List ScoredSlot) (maxSlots : Nat) : List ScoredSlot :=
  (List.insertionSort scoreGe scored).take maxSlots

/-- `ConstraintBasedScheduler.find_available_slots` (lines 338-395); the
calendar service dependency is the injected `commonAvail` function. -/
def findAvailableSlots (commonAvail : List String → Int → Int → Int → String → List Slot)
    (participants : List String) (durationMinutes : Int) (dateRange : Int × Int)
    (constraints : Option (List SchedulingConstraint)) (preferences : Option Prefs)
    (timezone : String) (maxSlots : Nat) (now : Int) : List ScoredSlot :=
  let common := commonAvail participants dateRange.1 dateRange.2 durationMinutes timezone
  if common.isEmpty then []
  else
    let allConstraints := prepareConstraints constraints preferences
    let ctx : Ctx := ⟨timezone, durationMinutes, participants, preferences, now⟩
    rankSlots (scoreSlots common allConstraints ctx) maxSlots

/-! ## Interview orchestration (src/scheduling_engine.py, lines 515-869) -/

/-- A created calendar event; only its id is consumed downstream
(`event_data["id"]`). -/
structure Event where
  id : String
deriving DecidableEq

/-- The `event_details` dict of `schedule_interview` (lines 648-656). -/
structure EventDetails where
  title : String
  location : String
  description : String
  startTime : Int
  endTime : Int
  timezone : String
  attendees : List String
deriving DecidableEq

/-- The injected calendar service (the Calendar Collaborator): common
availability plus event CRUD.  A `none` result of `createEvent` or
`deleteEvent` models a raised exception, which the orchestrator catches
per participant. -/
structure CalendarAPI where
  getCommonAvailability : List String → Int → Int → Int → String → List Slot
  createEvent : String → EventDetails → Option Event
  deleteEvent : String → String → Option Bool

/-- Impure inputs of the source made explicit: the wall clock
(`datetime.now()`), and the ids produced by `_generate_slot_id` (indexed
by the order of the calls within one slot-enrichment loop) and
`_generate_interview_id`, which the source builds from the timestamp and
a random number. -/
structure Env where
  now : Int
  slotIds : Nat → String
  interviewId : String

/-- A slot dict after `InterviewScheduler.find_available_slots` added
`job_id`, `candidate_id`, `interviewer_ids` and `slot_id`
(lines 577-587). -/
structure EnrichedSlot where
  scored : ScoredSlot
  jobId : String
  candidateId : String
  interviewerIds : List String
  slotId : String
deriving DecidableEq

/-- `InterviewScheduler.find_available_slots` (lines 534-587): union the
participants (the candidate is appended when its id is truthy), delegate
to the constraint-based scheduler, then enrich each ranked slot. -/
def interviewFindAvailableSlots (cal : CalendarAPI) (env : Env)
    (jobId candidateId : String) (interviewerIds : List String)
    (durationMinutes : Int) (dateRange : Int × Int) (preferences : Option Prefs)
    (timezone : String) (maxSlots : Nat) : List EnrichedSlot :=
  let participants := interviewerIds ++ (if candidateId = "" then [] else [candidateId])
  let slots := findAvailableSlots cal.getCommonAvailability participants
    durationMinutes dateRange none preferences timezone maxSlots env.now
  slots.enum.map (fun p =>
    ⟨p.2, jobId, candidateId, interviewerIds, env.slotIds p.1⟩)

/-- An interview record (the dict built at lines 697-712, with the keys
later added by `cancel_interview`; `stop` models the key `end_time`). -/
structure Interview where
  id : String
  jobId : String
  candidateId : String
  interviewerIds : List String
  start : Int
  stop : Int
  timezone : String
  location : String
  interviewType : String
  additionalInfo : String
  status : String
  createdAt : Int
  events : List (String × Event)
  participantNames : List String
  cancellationReason : String := ""
  cancelledAt : Int := 0
deriving DecidableEq

/-- `InterviewScheduler.schedule_interview` (lines 601-715): create one
calendar event per interviewer and one for the candidate, catching and
skipping per-participant failures; the notification send (lines 680-694)
has no effect on the returned record and is omitted.  Returns the record
with status `scheduled` and the per-participant event map of the
successful creations. -/
def scheduleInterview (cal : CalendarAPI) (env : Env)
    (jobId candidateId : String) (interviewerIds : List String)
    (startTime endTime : Int) (location interviewType additionalInfo : String)
    (timezone : String) : Interview :=
  let candidateName := "Candidate " ++ candidateId
  let candidateEmail := candidateId ++ "@example.com"
  let interviewerNames := interviewerIds.map (fun i => "Interviewer " ++ i)
  let interviewerEmails := interviewerIds.map (fun i => i ++ "@example.com")
  let allAttendees := interviewerEmails ++ [candidateEmail]
  let eventDetails : EventDetails :=
    { title := "Interview: " ++ interviewType ++ " for Job " ++ jobId
      location := location
      description := "Interview with " ++ candidateName ++ "\n\nType: "
        ++ interviewType ++ "\n\n" ++ additionalInfo
      startTime := startTime
      endTime := endTime
      timezone := timezone
      attendees := allAttendees }
  let events := interviewerIds.foldl (fun acc iid =>
    match cal.createEvent iid eventDetails with
    | some ev => insertAssoc acc iid ev
    | none => acc) []
  let events := match cal.createEvent candidateId eventDetails with
    | some ev => insertAssoc events candidateId ev
    | none => events
  { id := env.interviewId
    jobId := jobId
    candidateId := candidateId
    interviewerIds := interviewerIds
    start := startTime
    stop := endTime
    timezone := timezone
    location := location
    interviewType := interviewType
    additionalInfo := additionalInfo
    status := "scheduled"
    createdAt := env.now
    events := events
    participantNames := [candidateName] ++ interviewerNames }

/-- `InterviewScheduler.cancel_interview` (lines 811-869) operating on a
retrieved interview record.  Modelled from the spec: the repository has
no database layer, so the source simulates the retrieval of the interview
by its id with a hard-coded record (lines 826-838); the spec gives an
Interview table keyed by interview id holding the record that Schedule
created, so the embedding takes that retrieved record as the parameter.
The second component of the result is the list of
`delete_event(participant, event_id)` invocations made by the loop at
lines 841-848; each invocation is wrapped in try/except, so every entry
of the event map is attempted (best-effort) and the results are
discarded. -/
def cancelInterview (interview : Interview) (reason : String) (now : Int) :
    Interview × List (String × String) :=
  let deleteCalls := interview.events.map (fun pe => (pe.1, pe.2.id))
  ({ interview with
      status := "cancelled"
      cancellationReason := reason
      cancelledAt := now },
   deleteCalls)

/-! ## Candidate self-scheduling (src/scheduling_engine.py, lines 872-1066)

`CandidateSchedulingService` holds two dicts of shared mutable state:
`self.tokens` and `self.available_slots`, both keyed by the token
string.  Raising a `ValueError` is modelled as an `Except.error` carrying
the message; every operation returns the (possibly updated) state
explicitly, and an error leaves it unchanged, as nothing is mutated
before the corresponding `raise` in the source. -/

/-- Data stored for a token by `generate_scheduling_token`
(lines 916-921). -/
structure TokenData where
  candidateId : String
  jobId : String
  expiration : Int
  createdAt : Int
deriving DecidableEq

/-- The mutable state of `CandidateSchedulingService`. -/
structure SchedState where
  tokens : List (String × TokenData)
  availableSlots : List (String × List EnrichedSlot)
deriving DecidableEq

/-- `generate_scheduling_token` (lines 895-923); the fresh token string,
built in the source from the timestamp and a random number, is passed in
explicitly. -/
def generateSchedulingToken (σ : SchedState) (token : String)
    (candidateId jobId : String) (expiration now : Int) :
    String × SchedState :=
  (token,
   { σ with tokens := insertAssoc σ.tokens token ⟨candidateId, jobId, expiration, now⟩ })

/-- `validate_token` (lines 937-959): unknown token, then expiry
(`datetime.now() > expiration`). -/
def validateToken (σ : SchedState) (now : Int) (token : String) :
    Except String TokenData :=
  match findAssoc σ.tokens token with
  | none => Except.error "Invalid token"
  | some td => if now > td.expiration then Except.error "Token expired" else Except.ok td

/-- The ranked-slot computation of `get_available_slots`
(lines 976-996): interviewers, duration and window are the simulated
job data of the source (two fixed interviewers, 60 minutes, from one to
ten days after now, UTC), `max_slots` defaulting to 10. -/
def computeSlotsForToken (cal : CalendarAPI) (env : Env) (td : TokenData) :
    List EnrichedSlot :=
  interviewFindAvailableSlots cal env td.jobId td.candidateId
    ["interviewer_11111", "interviewer_22222"] 60
    (env.now + 1440, env.now + 14400) none "UTC" 10

/-- `get_available_slots` (lines 961-1001): validate the token, compute
the ranked slots, store them under the token, return them. -/
def getAvailableSlots (cal : CalendarAPI) (env : Env) (σ : SchedState)
    (token : String) : Except String (List EnrichedSlot) × SchedState :=
  match validateToken σ env.now token with
  | Except.error e => (Except.error e, σ)
  | Except.ok td =>
    let slots := computeSlotsForToken cal env td
    (Except.ok slots,
     { σ with availableSlots := insertAssoc σ.availableSlots token slots })

/-- `confirm_slot` (lines 1003-1066): validate the token, look up the
cached slot list, find the selected slot by id, schedule the interview
(location, type, info and timezone are the simulated data of the
source), then delete the cached slots and the token. -/
def confirmSlot (cal : CalendarAPI) (env : Env) (σ : SchedState)
    (token slotId : String) : Except String Interview × SchedState :=
  match validateToken σ env.now token with
  | Except.error e => (Except.error e, σ)
  | Except.ok td =>
    match findAssoc σ.availableSlots token with
    | none => (Except.error "No available slots for this token", σ)
    | some slots =>
      match slots.find? (fun s => s.slotId = slotId) with
      | none => (Except.error "Invalid slot ID", σ)
      | some sel =>
        let interview := scheduleInterview cal env td.jobId td.candidateId
          sel.interviewerIds sel.scored.slot.start sel.scored.slot.stop
          "Conference Room A" "Technical Interview"
          "Please prepare to discuss your experience with Python and React."
          "UTC"
        (Except.ok interview,
         { tokens := removeAssoc σ.tokens token
           availableSlots := removeAssoc σ.availableSlots token })

/-! ## Concrete sample data for witnesses and counterexamples -/

/-- A fetch in which user `a` fails (raised exception) and every other
user reports no busy periods. -/
def failFetch : String → Option (List Ivl) := fun u =>
  if u = "a" then none else some []

/-- A fetch in which every user is busy for the whole hour `[0, 60)`,
producing a genuinely empty intersection with no failure. -/
def busyFetch : String → Option (List Ivl) := fun _ => some [⟨0, 60⟩]

/-- A fetch in which every user is busy for `[0, 30)` only. -/
def oneBusyFetch : String → Option (List Ivl) := fun _ => some [⟨0, 30⟩]

/-- The §8 scenario fetch: participant `A` busy 10:00-11:00 UTC
(minutes 600-660 of the epoch Monday), participant `B` busy 14:00-15:00
UTC (minutes 840-900). -/
def scenarioFetch : String → Option (List Ivl) := fun u =>
  if u = "A" then some [⟨600, 660⟩]
  else if u = "B" then some [⟨840, 900⟩]
  else some []

/-- A calendar collaborator with no common availability whose event
creation always succeeds with event id `ev`. -/
def sampleCal : CalendarAPI where
  getCommonAvailability := fun _ _ _ _ _ => []
  createEvent := fun _ _ => some ⟨"ev"⟩
  deleteEvent := fun _ _ => some true

/-- A calendar collaborator reporting one common 60-minute slot at
minutes 2000-2060. -/
def sampleCal2 : CalendarAPI where
  getCommonAvailability := fun _ _ _ _ _ => [⟨2000, 2060, 60⟩]
  createEvent := fun _ _ => some ⟨"ev"⟩
  deleteEvent := fun _ _ => some true

/-- An environment at wall-clock 0 generating slot ids `sidA`. -/
def envA : Env := ⟨0, fun _ => "sidA", "iv1"⟩

/-- An environment at wall-clock 0 generating slot ids `sidB` (a later
call of the source draws different random ids). -/
def envB : Env := ⟨0, fun _ => "sidB", "iv2"⟩

/-- Token data for candidate `cand` on job `job`, expiring far in the
future. -/
def sampleTD : TokenData := ⟨"cand", "job", 100000, 0⟩

/-- An enriched slot with id `s1` for job `job` and candidate `cand`. -/
def sampleEnriched : EnrichedSlot :=
  ⟨⟨⟨2000, 2060, 60⟩, 1, []⟩, "job", "cand", ["i1"], "s1"⟩

/-- Service state holding token `t` with a cached slot list. -/
def sampleState : SchedState := ⟨[("t", sampleTD)], [("t", [sampleEnriched])]⟩

/-- Service state holding token `t` with no cached slot list. -/
def sampleStateNoCache : SchedState := ⟨[("t", sampleTD)], []⟩

/-- Three scored slots with ascending starts; the first two share a
score. -/
def sampleScored : List ScoredSlot :=
  [⟨⟨0, 60, 60⟩, 1, []⟩, ⟨⟨60, 120, 60⟩, 1, []⟩, ⟨⟨120, 180, 60⟩, 2, []⟩]

/-- Two sample constraints with constant evaluations. -/
def sampleConstraintA : SchedulingConstraint := ⟨"A", 1/2, fun _ _ => 1⟩

/-- Second sample constraint. -/
def sampleConstraintB : SchedulingConstraint := ⟨"B", 1/4, fun _ _ => 0⟩

/-- A sample evaluation context. -/
def sampleCtx : Ctx := ⟨"UTC", 60, ["a"], none, 0⟩

/-! ## Association-list lemmas -/

theorem mem_insertAssoc {β : Type} {l : List (String × β)} {k : String} {v : β}
    {p : String × β} (h : p ∈ insertAssoc l k v) : p = (k, v) ∨ p ∈ l := by
  unfold insertAssoc at h
  split at h
  · obtain ⟨q, hq, hqe⟩ := List.mem_map.1 h
    by_cases hk : q.1 = k
    · left
      rw [← hqe]
      simp [hk]
    · right
      rw [← hqe]
      simpa [hk] using hq
  · rcases List.mem_append.1 h with h1 | h1
    · right
      exact h1
    · left
      simpa using h1

theorem self_mem_insertAssoc {β : Type} (l : List (String × β)) (k : String)
    (v : β) : (k, v) ∈ insertAssoc l k v := by
  unfold insertAssoc
  split
  case isTrue h =>
    obtain ⟨q, hq, hqk⟩ := List.any_eq_true.1 h
    refine List.mem_map.2 ⟨q, hq, ?_⟩
    simp at hqk
    simp [hqk]
  case isFalse h =>
    exact List.mem_append.2 (Or.inr (by simp))

theorem mem_insertAssoc_of_ne {β : Type} {l : List (String × β)} {k : String}
    {v : β} {p : String × β} (h : p ∈ l) (hne : p.1 ≠ k) :
    p ∈ insertAssoc l k v := by
  unfold insertAssoc
  split
  · exact List.mem_map.2 ⟨p, h, by simp [hne]⟩
  · exact List.mem_append.2 (Or.inl h)

theorem findAssoc_removeAssoc {β : Type} (l : List (String × β)) (k : String) :
    findAssoc (removeAssoc l k) k = none := by
  induction l with
  | nil => rfl
  | cons p rest ih =>
    by_cases h : p.1 = k
    · simpa [removeAssoc, List.filter_cons, h] using ih
    · simpa [removeAssoc, List.filter_cons, h, findAssoc] using ih

theorem findAssoc_eq_none_of_any_false {β : Type} {l : List (String × β)}
    {k : String} (h : l.any (fun p => p.1 = k) = false) :
    findAssoc l k = none := by
  induction l with
  | nil => rfl
  | cons p rest ih =>
    simp only [List.any_cons, Bool.or_eq_false_iff] at h
    have hp : p.1 ≠ k := by simpa using h.1
    simpa [findAssoc, hp] using ih h.2

theorem findAssoc_map_replace {β : Type} (l : List (String × β)) (k : String)
    (v : β) :
    findAssoc (l.map (fun p => if p.1 = k then (k, v) else p)) k
      = if l.any (fun p => p.1 = k) then some v else none := by
  induction l with
  | nil => rfl
  | cons p rest ih =>
    by_cases h : p.1 = k
    · simp [findAssoc, h]
    · have hd : decide (p.1 = k) = false := decide_eq_false h
      simp [findAssoc, h, hd, ih]
      rw [hd, Bool.false_or]

theorem findAssoc_append {β : Type} (l₁ l₂ : List (String × β)) (k : String) :
    findAssoc (l₁ ++ l₂) k
      = match findAssoc l₁ k with
        | some v => some v
        | none => findAssoc l₂ k := by
  induction l₁ with
  | nil => rfl
  | cons p rest ih =>
    by_cases h : p.1 = k
    · simp [findAssoc, h]
    · simpa [findAssoc, h] using ih

theorem findAssoc_insertAssoc_self {β : Type} (l : List (String × β))
    (k : String) (v : β) : findAssoc (insertAssoc l k v) k = some v := by
  unfold insertAssoc
  split
  case isTrue h => simp [findAssoc_map_replace, h]
  case isFalse h =>
    rw [findAssoc_append]
    have : findAssoc l k = none :=
      findAssoc_eq_none_of_any_false (Bool.eq_false_iff.2 h)
    simp [this, findAssoc]

/-! ## Availability-aggregation lemmas -/

theorem overlapsBusy_eq_false {busy : List Ivl} {x y : Int}
    (h : overlapsBusy busy x y = false) :
    ∀ b ∈ busy, ¬ (x < b.hi ∧ b.lo < y) := by
  intro b hb hxy
  have := List.any_eq_false.1 h b hb
  simp only [Bool.and_eq_true, decide_eq_true_eq, not_and] at this
  exact absurd (by linarith [hxy.2] : y > b.lo) (this hxy.1)

theorem mem_freeSlotsAux {busy : List Ivl} {e : Int} :
    ∀ {fuel : Nat} {cur : Int} {sl : Slot},
      sl ∈ freeSlotsAux busy e fuel cur →
      sl.stop = sl.start + 30 ∧ cur ≤ sl.start ∧ sl.stop ≤ e ∧
        overlapsBusy busy sl.start sl.stop = false := by
  intro fuel
  induction fuel with
  | zero => intro cur sl h; simp [freeSlotsAux] at h
  | succ n ih =>
    intro cur sl h
    rw [freeSlotsAux] at h
    split at h
    case isTrue hg =>
      rcases List.mem_append.1 h with h1 | h1
      · split at h1
        · simp at h1
        case isFalse hov =>
          have hsl : sl = ⟨cur, cur + 30, 30⟩ := by simpa using h1
          subst hsl
          refine ⟨rfl, le_refl _, hg, ?_⟩
          simpa using Bool.eq_false_iff.2 hov
      · obtain ⟨h1, h2, h3, h4⟩ := ih h1
        exact ⟨h1, by omega, h3, h4⟩
    case isFalse hg => simp at h

theorem mem_googleGetAvailability {fr : Option (List Ivl)} {s e : Int}
    {sl : Slot} (h : sl ∈ googleGetAvailability fr s e) :
    s ≤ sl.start ∧ sl.stop ≤ e ∧ sl.stop = sl.start + 30 ∧
      ∀ busy, fr = some busy →
        ∀ b ∈ busy, ¬ (sl.start < b.hi ∧ b.lo < sl.stop) := by
  match fr with
  | none => simp [googleGetAvailability] at h
  | some busy0 =>
    obtain ⟨h1, h2, h3, h4⟩ := @mem_freeSlotsAux busy0 e _ _ _ h
    refine ⟨h2, h3, h1, ?_⟩
    intro busy hb
    cases hb
    exact overlapsBusy_eq_false h4

theorem buildAllAvailability_val {fetch : String → Option (List Ivl)}
    {users : List String} {s e : Int} {p : String × List Slot}
    (h : p ∈ buildAllAvailability fetch users s e) :
    p.2 = googleGetAvailability (fetch p.1) s e := by
  have key : ∀ (us : List String) (acc : List (String × List Slot)),
      (∀ q ∈ acc, q.2 = googleGetAvailability (fetch q.1) s e) →
      ∀ q ∈ us.foldl
        (fun acc u => insertAssoc acc u (googleGetAvailability (fetch u) s e)) acc,
        q.2 = googleGetAvailability (fetch q.1) s e := by
    intro us
    induction us with
    | nil => intro acc hacc q hq; exact hacc q hq
    | cons u rest ih =>
      intro acc hacc q hq
      refine ih _ ?_ q hq
      intro r hr
      rcases mem_insertAssoc hr with h1 | h1
      · rw [h1]
      · exact hacc r h1
  exact key users [] (by simp) p h

theorem buildAllAvailability_key {fetch : String → Option (List Ivl)}
    {users : List String} {s e : Int} {u : String} (hu : u ∈ users) :
    ∃ v, (u, v) ∈ buildAllAvailability fetch users s e := by
  have key : ∀ (us : List String) (acc : List (String × List Slot)),
      (u ∈ us ∨ ∃ v, (u, v) ∈ acc) →
      ∃ v, (u, v) ∈ us.foldl
        (fun acc w => insertAssoc acc w (googleGetAvailability (fetch w) s e)) acc := by
    intro us
    induction us with
    | nil =>
      intro acc hacc
      rcases hacc with h1 | h1
      · simp at h1
      · exact h1
    | cons w rest ih =>
      intro acc hacc
      refine ih _ ?_
      by_cases hw : u = w
      · subst hw
        exact Or.inr ⟨_, self_mem_insertAssoc acc u _⟩
      · rcases hacc with h1 | h1
        · rcases List.mem_cons.1 h1 with h2 | h2
          · exact absurd h2 hw
          · exact Or.inl h2
        · obtain ⟨v, hv⟩ := h1
          exact Or.inr ⟨v, mem_insertAssoc_of_ne hv hw⟩
  exact key users [] (Or.inl hu)

theorem mem_intersectRanges {potential uslots : List (Int × Int)} {dur : Int}
    {r : Int × Int} (h : r ∈ intersectRanges potential uslots dur) :
    ∃ c ∈ potential, ∃ s ∈ uslots,
      c.1 ≤ r.1 ∧ r.2 ≤ c.2 ∧ s.1 ≤ r.1 ∧ r.2 ≤ s.2 ∧
        r.1 < r.2 ∧ dur ≤ r.2 - r.1 := by
  obtain ⟨c, hc, hr⟩ := List.mem_flatMap.1 h
  obtain ⟨s, hs, hrs⟩ := List.mem_filterMap.1 hr
  refine ⟨c, hc, s, hs, ?_⟩
  by_cases hcond : max c.1 s.1 < min c.2 s.2 ∧ dur ≤ min c.2 s.2 - max c.1 s.1
  · rw [if_pos hcond] at hrs
    cases hrs
    refine ⟨le_max_left _ _, min_le_left _ _, le_max_right _ _, min_le_right _ _,
      hcond.1, hcond.2⟩
  · rw [if_neg hcond] at hrs
    cases hrs

theorem mem_intersectFold_first {dur : Int} :
    ∀ {rests : List (List (Int × Int))} {potential : List (Int × Int)}
      {r : Int × Int}, r ∈ intersectFold dur potential rests →
      ∃ c ∈ potential, c.1 ≤ r.1 ∧ r.2 ≤ c.2 := by
  intro rests
  induction rests with
  | nil =>
    intro potential r h
    exact ⟨r, by simpa [intersectFold] using h, le_refl _, le_refl _⟩
  | cons us rest ih =>
    intro potential r h
    rw [intersectFold] at h
    split at h
    · simp at h
    · obtain ⟨c2, hc2, hb1, hb2⟩ := ih h
      obtain ⟨c, hc, _, _, h1, h2, _, _, _, _⟩ := mem_intersectRanges hc2
      exact ⟨c, hc, by omega, by omega⟩

theorem mem_intersectFold_rest {dur : Int} :
    ∀ {rests : List (List (Int × Int))} {potential : List (Int × Int)}
      {r : Int × Int}, r ∈ intersectFold dur potential rests →
      ∀ us ∈ rests, ∃ s ∈ us, s.1 ≤ r.1 ∧ r.2 ≤ s.2 := by
  intro rests
  induction rests with
  | nil => intro potential r _ us hus; simp at hus
  | cons us0 rest ih =>
    intro potential r h us hus
    rw [intersectFold] at h
    split at h
    · simp at h
    · rcases List.mem_cons.1 hus with h1 | h1
      · subst h1
        obtain ⟨c2, hc2, hb1, hb2⟩ := mem_intersectFold_first h
        obtain ⟨c, hc, s, hs, _, _, h3, h4, _, _⟩ := mem_intersectRanges hc2
        exact ⟨s, hs, by omega, by omega⟩
      · exact ih h us h1

theorem intersectFold_nil_left {dur : Int} :
    ∀ (rests : List (List (Int × Int))), intersectFold dur [] rests = [] := by
  intro rests
  cases rests with
  | nil => rfl
  | cons us rest => simp [intersectFold, intersectRanges]

theorem mem_findCommonSlots {allAvail : List (String × List Slot)} {dur : Int}
    {sl : Slot} (h : sl ∈ findCommonSlots allAvail dur) :
    dur ≤ sl.stop - sl.start ∧
      ∀ q ∈ allAvail, ∃ fs ∈ q.2, fs.start ≤ sl.start ∧ sl.stop ≤ fs.stop := by
  match allAvail with
  | [] => simp [findCommonSlots] at h
  | (u0, v0) :: rest =>
    rw [findCommonSlots] at h
    obtain ⟨r, hr, hcond⟩ := List.mem_filterMap.1 h
    by_cases hd : dur ≤ r.2 - r.1
    · rw [if_pos hd] at hcond
      cases hcond
      constructor
      · simpa using hd
      · intro q hq
        rcases List.mem_cons.1 hq with h1 | h1
        · subst h1
          obtain ⟨c, hc, hb1, hb2⟩ := mem_intersectFold_first hr
          obtain ⟨fs, hfs, hfse⟩ := List.mem_map.1 hc
          refine ⟨fs, hfs, ?_, ?_⟩
          · simp only [← hfse] at hb1; simpa using hb1
          · simp only [← hfse] at hb2; simpa using hb2
        · have hus : (q.2.map (fun s => (s.start, s.stop)))
              ∈ rest.map (fun p => p.2.map (fun s => (s.start, s.stop))) :=
            List.mem_map.2 ⟨q, h1, rfl⟩
          obtain ⟨s, hs, hb1, hb2⟩ := mem_intersectFold_rest hr _ hus
          obtain ⟨fs, hfs, hfse⟩ := List.mem_map.1 hs
          refine ⟨fs, hfs, ?_, ?_⟩
          · simp only [← hfse] at hb1; simpa using hb1
          · simp only [← hfse] at hb2; simpa using hb2
    · rw [if_neg hd] at hcond
      cases hcond

theorem findCommonSlots_of_empty_entry {allAvail : List (String × List Slot)}
    {dur : Int} {u : String} (h : (u, ([] : List Slot)) ∈ allAvail) :
    findCommonSlots allAvail dur = [] := by
  rw [List.eq_nil_iff_forall_not_mem]
  intro sl hsl
  obtain ⟨_, hall⟩ := mem_findCommonSlots hsl
  obtain ⟨fs, hfs, _⟩ := hall (u, []) h
  simp at hfs

/-! ## Ranking lemmas

`rankedBefore a b` states that `a` may legitimately precede `b` in the
ranked output: either a strictly larger score, or an equal score with an
earlier (or equal) start. -/

/-- Strict-weak ordering of the ranked output combined with the stability
tie-break. -/
def rankedBefore (a b : ScoredSlot) : Prop :=
  b.score < a.score ∨ (b.score = a.score ∧ a.slot.start ≤ b.slot.start)

theorem orderedInsert_rankedBefore {x : ScoredSlot} {l : List ScoredSlot}
    (hl : l.Pairwise rankedBefore)
    (hx : ∀ y ∈ l, x.slot.start ≤ y.slot.start) :
    (List.orderedInsert scoreGe x l).Pairwise rankedBefore := by
  induction l with
  | nil => simp [List.orderedInsert]
  | cons y ys ih =>
    rw [List.orderedInsert]
    rcases List.pairwise_cons.1 hl with ⟨hy, hys⟩
    split
    case isTrue hge =>
      refine List.pairwise_cons.2 ⟨?_, hl⟩
      intro z hz
      rcases List.mem_cons.1 hz with h1 | h1
      · subst h1
        rcases lt_or_eq_of_le hge with h2 | h2
        · exact Or.inl h2
        · exact Or.inr ⟨h2, hx z (List.mem_cons_self _ _)⟩
      · have hyz := hy z h1
        have hz_start := hx z (List.mem_cons_of_mem _ h1)
        rcases hyz with h2 | h2
        · rcases lt_or_eq_of_le (le_trans (le_of_lt h2) hge) with h3 | h3
          · exact Or.inl h3
          · exact Or.inr ⟨h3, hz_start⟩
        · rcases lt_or_eq_of_le (le_trans (le_of_eq h2.1) hge) with h3 | h3
          · exact Or.inl h3
          · exact Or.inr ⟨h3, hz_start⟩
    case isFalse hge =>
      refine List.pairwise_cons.2 ⟨?_, ?_⟩
      · intro z hz
        rcases (List.mem_orderedInsert scoreGe).1 hz with h1 | h1
        · subst h1
          exact Or.inl (lt_of_not_le hge)
        · exact hy z h1
      · exact ih hys (fun z hz => hx z (List.mem_cons_of_mem _ hz))

theorem insertionSort_rankedBefore {l : List ScoredSlot}
    (h : l.Pairwise (fun a b => a.slot.start ≤ b.slot.start)) :
    (List.insertionSort scoreGe l).Pairwise rankedBefore := by
  induction l with
  | nil => simp [List.insertionSort]
  | cons x xs ih =>
    rw [List.insertionSort]
    rcases List.pairwise_cons.1 h with ⟨hx, hxs⟩
    refine orderedInsert_rankedBefore (ih hxs) ?_
    intro y hy
    exact hx y ((List.mem_insertionSort scoreGe).1 hy)

/-! ## Claim theorems -/

/-- Claim C6: the slot ranking sorts the scored slots descending by
aggregate score, deterministically breaks ties between equal-score slots
so that the slot with the earlier start time comes first (Python sorted
is stable and the aggregator feeds slots in ascending start order, which
is the stated hypothesis), and returns at most maxResults slots. -/
theorem c6_ranking (scored : List ScoredSlot) (maxSlots : Nat)
    (h : scored.Pairwise (fun a b => a.slot.start ≤ b.slot.start)) :
    (rankSlots scored maxSlots).Pairwise (fun a b => b.score ≤ a.score) ∧
    (rankSlots scored maxSlots).Pairwise
      (fun a b => a.score = b.score → a.slot.start ≤ b.slot.start) ∧
    (rankSlots scored maxSlots).length ≤ maxSlots := by
  have hp := insertionSort_rankedBefore h
  have hsub := List.take_sublist maxSlots (List.insertionSort scoreGe scored)
  refine ⟨?_, ?_, ?_⟩
  · exact (hp.imp (fun hab => by
      rcases hab with h1 | h1
      · exact le_of_lt h1
      · exact le_of_eq h1.1)).sublist hsub
  · refine (hp.imp (fun hab => ?_)).sublist hsub
    intro heq
    rcases hab with h1 | h1
    · exact absurd h1 (by rw [heq]; exact lt_irrefl _)
    · exact h1.2
  · rw [rankSlots, List.length_take]
    exact min_le_left _ _

/-- Witness for C6 at a concrete ascending scored-slot list with a score
tie. -/
theorem c6_ranking_witness :
    (rankSlots sampleScored 2).Pairwise (fun a b => b.score ≤ a.score) ∧
    (rankSlots sampleScored 2).Pairwise
      (fun a b => a.score = b.score → a.slot.start ≤ b.slot.start) ∧
    (rankSlots sampleScored 2).length ≤ 2 :=
  c6_ranking sampleScored 2 (by decide)

/-- Claim C7: the aggregate score attached to a slot is the weighted
average of the constraint evaluations (sum of score times weight over sum
of weights) when the total weight is positive, is 1.0 when the total
weight is zero, and is invariant under permutation of the constraint
list. -/
theorem c7_aggregate_score (cs cs2 : List SchedulingConstraint) (slot : Slot)
    (ctx : Ctx) (hperm : cs.Perm cs2) :
    (0 < totalWeight cs →
      (scoreSlot cs slot ctx).score
        = weightedScore cs slot ctx / totalWeight cs) ∧
    (totalWeight cs = 0 → (scoreSlot cs slot ctx).score = 1) ∧
    (scoreSlot cs slot ctx).score = (scoreSlot cs2 slot ctx).score := by
  refine ⟨?_, ?_, ?_⟩
  · intro h
    simp [scoreSlot, h]
  · intro h
    simp [scoreSlot, h]
  · have hw : totalWeight cs = totalWeight cs2 := by
      unfold totalWeight
      exact (hperm.map (fun c => c.weight)).sum_eq
    have hws : weightedScore cs slot ctx = weightedScore cs2 slot ctx := by
      unfold weightedScore
      exact (hperm.map (fun c => c.eval slot ctx * c.weight)).sum_eq
    simp only [scoreSlot]
    rw [hw, hws]

/-- Witness for C7 on a two-constraint list and its swap. -/
theorem c7_aggregate_score_witness :
    (0 < totalWeight [sampleConstraintA, sampleConstraintB] →
      (scoreSlot [sampleConstraintA, sampleConstraintB] ⟨0, 60, 60⟩ sampleCtx).score
        = weightedScore [sampleConstraintA, sampleConstraintB] ⟨0, 60, 60⟩ sampleCtx
          / totalWeight [sampleConstraintA, sampleConstraintB]) ∧
    (totalWeight [sampleConstraintA, sampleConstraintB] = 0 →
      (scoreSlot [sampleConstraintA, sampleConstraintB] ⟨0, 60, 60⟩ sampleCtx).score = 1) ∧
    (scoreSlot [sampleConstraintA, sampleConstraintB] ⟨0, 60, 60⟩ sampleCtx).score
      = (scoreSlot [sampleConstraintB, sampleConstraintA] ⟨0, 60, 60⟩ sampleCtx).score :=
  c7_aggregate_score _ _ _ _
    (List.Perm.swap sampleConstraintB sampleConstraintA [])

/-- Claim C2: no busy interval of any requested participant overlaps the
half-open window of any slot returned by the availability aggregation:
each participant gets only free 30-minute windows, and the
cross-participant intersection only shrinks windows. -/
theorem c2_no_busy_overlap (fetch : String → Option (List Ivl))
    (users : List String) (s e dur : Int) (sl : Slot) (u : String)
    (busy : List Ivl) (b : Ivl)
    (hsl : sl ∈ getCommonAvailability fetch users s e dur)
    (hu : u ∈ users) (hf : fetch u = some busy) (hb : b ∈ busy) :
    ¬ (sl.start < b.hi ∧ b.lo < sl.stop) := by
  obtain ⟨v, hv⟩ := @buildAllAvailability_key fetch users s e u hu
  have hval := buildAllAvailability_val hv
  rw [getCommonAvailability] at hsl
  obtain ⟨_, hall⟩ := mem_findCommonSlots hsl
  obtain ⟨fs, hfs, hc1, hc2⟩ := hall (u, v) hv
  simp only at hval
  rw [hval] at hfs
  obtain ⟨_, _, _, hover⟩ := mem_googleGetAvailability hfs
  intro hcontra
  exact hover busy hf b hb ⟨by omega, by omega⟩

/-- Witness for C2: one participant busy over the first half hour; the
first returned slot starts only when the busy interval ends. -/
theorem c2_no_busy_overlap_witness :
    ¬ ((30 : Int) < (30 : Int) ∧ (0 : Int) < (60 : Int)) :=
  c2_no_busy_overlap oneBusyFetch ["a"] 0 90 30 ⟨30, 60, 30⟩ "a" [⟨0, 30⟩]
    ⟨0, 30⟩ (by decide) (by decide) (by decide) (by decide)

/-- Claim C5: every slot returned by the availability aggregation for the
window from s to e with minimum duration dur starts no earlier than s,
ends no later than e, and lasts at least dur minutes. -/
theorem c5_slot_bounds (fetch : String → Option (List Ivl))
    (users : List String) (s e dur : Int) (sl : Slot)
    (hsl : sl ∈ getCommonAvailability fetch users s e dur) :
    s ≤ sl.start ∧ sl.stop ≤ e ∧ dur ≤ sl.stop - sl.start := by
  rw [getCommonAvailability] at hsl
  obtain ⟨hdur, hall⟩ := mem_findCommonSlots hsl
  cases hA : buildAllAvailability fetch users s e with
  | nil =>
    rw [hA] at hsl
    simp [findCommonSlots] at hsl
  | cons q qs =>
    rw [hA] at hall
    obtain ⟨fs, hfs, hc1, hc2⟩ := hall q (List.mem_cons_self _ _)
    have hqmem : q ∈ buildAllAvailability fetch users s e := by
      rw [hA]
      exact List.mem_cons_self _ _
    have hval := buildAllAvailability_val hqmem
    rw [hval] at hfs
    obtain ⟨hb1, hb2, _, _⟩ := mem_googleGetAvailability hfs
    exact ⟨by omega, by omega, hdur⟩

/-- Witness for C5 at a concrete window and duration. -/
theorem c5_slot_bounds_witness :
    (0 : Int) ≤ (30 : Int) ∧ (60 : Int) ≤ (90 : Int) ∧
      (30 : Int) ≤ (60 : Int) - (30 : Int) :=
  c5_slot_bounds oneBusyFetch ["a"] 0 90 30 ⟨30, 60, 30⟩ (by decide)

/-- Counterexample for C3: a failing busy-interval fetch does not produce
a distinguishable AvailabilityUnavailable error; the aggregation returns
the plain empty slot list, the very value produced by a genuinely empty
intersection. -/
theorem c3_counterexample :
    getCommonAvailability failFetch ["a", "b"] 0 60 30 = [] ∧
    getCommonAvailability busyFetch ["a", "b"] 0 60 30 = [] ∧
    getCommonAvailability failFetch ["a", "b"] 0 60 30
      = getCommonAvailability busyFetch ["a", "b"] 0 60 30 := by
  refine ⟨by decide, by decide, by decide⟩

/-- Claim C3 as amended: if any participant fetch fails, the aggregation
returns the empty slot list (fail-closed, never a partial list computed
from the reachable participants only); this outcome is the same value as
an empty intersection rather than a distinguishable error. -/
theorem c3_fetch_failure_empty (fetch : String → Option (List Ivl))
    (users : List String) (s e dur : Int) (u : String)
    (hu : u ∈ users) (hf : fetch u = none) :
    getCommonAvailability fetch users s e dur = [] := by
  obtain ⟨v, hv⟩ := @buildAllAvailability_key fetch users s e u hu
  have hval := buildAllAvailability_val hv
  simp only [hf, googleGetAvailability] at hval
  rw [getCommonAvailability]
  exact findCommonSlots_of_empty_entry (hval ▸ hv)

/-- Witness for C3 as amended: user a fails, the whole result is empty. -/
theorem c3_fetch_failure_empty_witness :
    getCommonAvailability failFetch ["a", "b"] 0 60 30 = [] :=
  c3_fetch_failure_empty failFetch ["a", "b"] 0 60 30 "a" (by decide) (by decide)

/-- Claim C4 (the code diverges from it): in the §8 scenario with
participant A busy 10:00-11:00, participant B busy 14:00-15:00, a
single-day 9:00-17:00 window and 60-minute duration, the aggregation
returns no slot at all, because `get_availability` quantizes free time
into hard-coded 30-minute windows regardless of the requested duration
and the intersection then discards every window shorter than 60 minutes;
the spec expects the six hour-aligned 60-minute windows instead. -/
theorem c4_scenario_yields_empty :
    getCommonAvailability scenarioFetch ["A", "B"] 540 1020 60 = [] := by
  decide

/-- Counterexample for C1: after a successful confirm the token entry is
deleted, so a second ConfirmSlot on the same token raises the generic
message `Invalid token` (the same response an unknown token gets), not a
TokenAlreadyConsumed error; no such error exists in the code. -/
theorem c1_counterexample :
    ((confirmSlot sampleCal envA sampleState "t" "s1").1.isOk = true) ∧
    ((confirmSlot sampleCal envA
        (confirmSlot sampleCal envA sampleState "t" "s1").2 "t" "s1").1
      = Except.error "Invalid token") ∧
    ((confirmSlot sampleCal envA (⟨[], []⟩ : SchedState) "t" "s1").1
      = Except.error "Invalid token") :=
  ⟨rfl, rfl, rfl⟩

/-- Claim C1 as amended: after one successful ConfirmSlot on a token,
the token and its cached slots are deleted, and every subsequent
ConfirmSlot on that token, with any slot id and at any later wall-clock
time, returns the InvalidToken error (message `Invalid token`) with the
state unchanged, so no further interview is scheduled and the token is
consumed at most once. -/
theorem c1_consumed_token_confirm (cal : CalendarAPI) (env env2 : Env)
    (σ : SchedState) (t sid sid2 : String) (iv : Interview) (σ2 : SchedState)
    (h : confirmSlot cal env σ t sid = (Except.ok iv, σ2)) :
    confirmSlot cal env2 σ2 t sid2 = (Except.error "Invalid token", σ2) := by
  have hσ2 : σ2 = ⟨removeAssoc σ.tokens t, removeAssoc σ.availableSlots t⟩ := by
    unfold confirmSlot at h
    split at h
    · simp at h
    · split at h
      · simp at h
      · split at h
        · simp at h
        · simp only [Prod.mk.injEq] at h
          exact h.2.symm
  rw [hσ2]
  simp [confirmSlot, validateToken, findAssoc_removeAssoc]

/-- Witness for C1 as amended at a concrete consumed state. -/
theorem c1_consumed_token_confirm_witness :
    confirmSlot sampleCal envA (⟨[], []⟩ : SchedState) "t" "s1"
      = (Except.error "Invalid token", (⟨[], []⟩ : SchedState)) :=
  c1_consumed_token_confirm sampleCal envA envA sampleState "t" "s1" "s1"
    (scheduleInterview sampleCal envA "job" "cand" ["i1"] 2000 2060
      "Conference Room A" "Technical Interview"
      "Please prepare to discuss your experience with Python and React." "UTC")
    ⟨[], []⟩ rfl

/-- Claim C10: ConfirmSlot on a token that is known and unexpired but has
no cached slot list (GetSlots never ran) fails with the message
`No available slots for this token`, schedules no interview, and leaves
the token store and the slot cache unchanged. -/
theorem c10_confirm_without_getslots (cal : CalendarAPI) (env : Env)
    (σ : SchedState) (t sid : String) (td : TokenData)
    (h1 : findAssoc σ.tokens t = some td)
    (h2 : ¬ env.now > td.expiration)
    (h3 : findAssoc σ.availableSlots t = none) :
    confirmSlot cal env σ t sid
      = (Except.error "No available slots for this token", σ) := by
  unfold confirmSlot validateToken
  rw [h1]
  simp [h2, h3]

/-- Witness for C10 at a concrete cache-free state. -/
theorem c10_confirm_without_getslots_witness :
    confirmSlot sampleCal envA sampleStateNoCache "t" "s1"
      = (Except.error "No available slots for this token", sampleStateNoCache) :=
  c10_confirm_without_getslots sampleCal envA sampleStateNoCache "t" "s1"
    sampleTD rfl (by decide) rfl

/-- Counterexample for C8: two successive GetSlots calls with the same
valid token both succeed, but the second returns a list different from
the first (the slot ids are drawn afresh), so the second call does not
return the first cached list unchanged. -/
theorem c8_counterexample :
    ((getAvailableSlots sampleCal2 envA sampleStateNoCache "t").1.isOk = true) ∧
    ((getAvailableSlots sampleCal2 envB
        (getAvailableSlots sampleCal2 envA sampleStateNoCache "t").2 "t").1.isOk
      = true) ∧
    ((getAvailableSlots sampleCal2 envB
        (getAvailableSlots sampleCal2 envA sampleStateNoCache "t").2 "t").1.toOption.map
          (fun l => l.map (fun s => s.slotId)))
      ≠ ((getAvailableSlots sampleCal2 envA sampleStateNoCache "t").1.toOption.map
          (fun l => l.map (fun s => s.slotId))) :=
  ⟨rfl, rfl, by decide⟩

/-- Claim C8 as amended: every GetSlots call with a valid, unexpired
token recomputes the ranked slot list from the current environment and
calendar, returns it, and overwrites the cache entry for the token; the
cached list is never read (the result is the same for every prior cache
content), so a later call may return a different list; the cache is read
only by ConfirmSlot. -/
theorem c8_recompute_overwrite (cal : CalendarAPI) (env : Env)
    (σ : SchedState) (t : String) (td : TokenData)
    (h1 : findAssoc σ.tokens t = some td)
    (h2 : ¬ env.now > td.expiration) :
    getAvailableSlots cal env σ t
      = (Except.ok (computeSlotsForToken cal env td),
         { σ with availableSlots :=
             insertAssoc σ.availableSlots t (computeSlotsForToken cal env td) }) ∧
    findAssoc (getAvailableSlots cal env σ t).2.availableSlots t
      = some (computeSlotsForToken cal env td) ∧
    ∀ cache2 : List (String × List EnrichedSlot),
      (getAvailableSlots cal env ⟨σ.tokens, cache2⟩ t).1
        = Except.ok (computeSlotsForToken cal env td) := by
  have key : ∀ (c : List (String × List EnrichedSlot)),
      getAvailableSlots cal env ⟨σ.tokens, c⟩ t
        = (Except.ok (computeSlotsForToken cal env td),
           ⟨σ.tokens, insertAssoc c t (computeSlotsForToken cal env td)⟩) := by
    intro c
    unfold getAvailableSlots validateToken
    simp [h1, h2]
  have keyσ : getAvailableSlots cal env σ t
      = (Except.ok (computeSlotsForToken cal env td),
         { σ with availableSlots :=
             insertAssoc σ.availableSlots t (computeSlotsForToken cal env td) }) :=
    key σ.availableSlots
  refine ⟨keyσ, ?_, ?_⟩
  · rw [keyσ]
    exact findAssoc_insertAssoc_self _ _ _
  · intro c2
    rw [key c2]

/-- Witness for C8 as amended at a concrete state: the new cache entry is
exactly the freshly computed list. -/
theorem c8_recompute_overwrite_witness :
    findAssoc (getAvailableSlots sampleCal2 envA sampleStateNoCache "t").2.availableSlots "t"
      = some (computeSlotsForToken sampleCal2 envA sampleTD) :=
  (c8_recompute_overwrite sampleCal2 envA sampleStateNoCache "t" sampleTD
    rfl (by decide)).2.1

/-- Claim C9: cancelling an interview previously created by the schedule
operation invokes DeleteEvent for every participant that has a recorded
event reference in the per-participant event map of that interview, and
the returned interview has final status cancelled. -/
theorem c9_cancel_after_schedule (cal : CalendarAPI) (env : Env)
    (jobId candidateId : String) (interviewerIds : List String)
    (startTime endTime : Int) (location ty info tz reason : String)
    (now : Int) :
    (∀ p ev, (p, ev) ∈ (scheduleInterview cal env jobId candidateId
        interviewerIds startTime endTime location ty info tz).events →
      (p, ev.id) ∈ (cancelInterview (scheduleInterview cal env jobId candidateId
        interviewerIds startTime endTime location ty info tz) reason now).2) ∧
    (cancelInterview (scheduleInterview cal env jobId candidateId
        interviewerIds startTime endTime location ty info tz) reason now).1.status
      = "cancelled" := by
  constructor
  · intro p ev h
    exact List.mem_map.2 ⟨(p, ev), h, rfl⟩
  · rfl

/-- Witness for C9 at a concrete schedule-then-cancel run. -/
theorem c9_cancel_after_schedule_witness :
    (("i1", Event.mk "ev") ∈ (scheduleInterview sampleCal envA "job" "cand"
        ["i1"] 2000 2060 "HQ" "tech" "info" "UTC").events →
      ("i1", "ev") ∈ (cancelInterview (scheduleInterview sampleCal envA "job"
        "cand" ["i1"] 2000 2060 "HQ" "tech" "info" "UTC") "no-show" 5).2) ∧
    (cancelInterview (scheduleInterview sampleCal envA "job" "cand" ["i1"]
        2000 2060 "HQ" "tech" "info" "UTC") "no-show" 5).1.status
      = "cancelled" :=
  ⟨fun h => (c9_cancel_after_schedule sampleCal envA "job" "cand" ["i1"]
      2000 2060 "HQ" "tech" "info" "UTC" "no-show" 5).1 "i1" ⟨"ev"⟩ h,
   (c9_cancel_after_schedule sampleCal envA "job" "cand" ["i1"]
      2000 2060 "HQ" "tech" "info" "UTC" "no-show" 5).2⟩

end LeadGen
